import Mathlib

/-!
Verification of the V4L2 raw video demux module (`modules/access/v4l2/demux.c`)
and the packed-YUV offset helper (`modules/video_filter/filter_picture.h`).

The C code is shallowly embedded: machine integers become `Nat` (all the
constants involved fit well below 2^32, and no arithmetic here overflows),
pointers into the static format table become `(index, entry)` pairs, the
`ioctl`-driven enumeration becomes an explicit list of enumerated format
descriptors, and C control flow becomes structural recursion.
-/

namespace V4l2Demux

/-- Little-endian fourcc packing, as done by both the kernel's
`v4l2_fourcc(a,b,c,d)` macro and VLC's `VLC_FOURCC` macro. -/
def fcc (a b c d : Char) : Nat :=
  a.toNat + 256 * (b.toNat + 256 * (c.toNat + 256 * d.toNat))

/-- `SIZE_MAX` on a 64-bit platform, the rank of a NULL descriptor. -/
def SIZE_MAX : Nat := 2 ^ 64 - 1

-- V4L2 pixel-format fourccs (from the kernel's videodev2.h).
def V4L2_PIX_FMT_YUV420 : Nat := fcc 'Y' 'U' '1' '2'
def V4L2_PIX_FMT_YVU420 : Nat := fcc 'Y' 'V' '1' '2'
def V4L2_PIX_FMT_YUV422P : Nat := fcc '4' '2' '2' 'P'
def V4L2_PIX_FMT_YUYV : Nat := fcc 'Y' 'U' 'Y' 'V'
def V4L2_PIX_FMT_UYVY : Nat := fcc 'U' 'Y' 'V' 'Y'
def V4L2_PIX_FMT_YVYU : Nat := fcc 'Y' 'V' 'Y' 'U'
def V4L2_PIX_FMT_VYUY : Nat := fcc 'V' 'Y' 'U' 'Y'
def V4L2_PIX_FMT_YUV411P : Nat := fcc '4' '1' '1' 'P'
def V4L2_PIX_FMT_YUV410 : Nat := fcc 'Y' 'U' 'V' '9'
def V4L2_PIX_FMT_NV12 : Nat := fcc 'N' 'V' '1' '2'
def V4L2_PIX_FMT_NV21 : Nat := fcc 'N' 'V' '2' '1'
def V4L2_PIX_FMT_RGB32 : Nat := fcc 'R' 'G' 'B' '4'
def V4L2_PIX_FMT_BGR32 : Nat := fcc 'B' 'G' 'R' '4'
def V4L2_PIX_FMT_RGB24 : Nat := fcc 'R' 'G' 'B' '3'
def V4L2_PIX_FMT_BGR24 : Nat := fcc 'B' 'G' 'R' '3'
def V4L2_PIX_FMT_RGB565 : Nat := fcc 'R' 'G' 'B' 'P'
def V4L2_PIX_FMT_RGB555 : Nat := fcc 'R' 'G' 'B' 'O'
def V4L2_PIX_FMT_JPEG : Nat := fcc 'J' 'P' 'E' 'G'
def V4L2_PIX_FMT_H264 : Nat := fcc 'H' '2' '6' '4'
def V4L2_PIX_FMT_MPEG4 : Nat := fcc 'M' 'P' 'G' '4'
def V4L2_PIX_FMT_XVID : Nat := fcc 'X' 'V' 'I' 'D'
def V4L2_PIX_FMT_H263 : Nat := fcc 'H' '2' '6' '3'
def V4L2_PIX_FMT_MPEG2 : Nat := fcc 'M' 'P' 'G' '2'
def V4L2_PIX_FMT_MPEG1 : Nat := fcc 'M' 'P' 'G' '1'
def V4L2_PIX_FMT_VC1_ANNEX_G : Nat := fcc 'V' 'C' '1' 'G'
def V4L2_PIX_FMT_VC1_ANNEX_L : Nat := fcc 'V' 'C' '1' 'L'
def V4L2_PIX_FMT_MJPEG : Nat := fcc 'M' 'J' 'P' 'G'
def V4L2_PIX_FMT_GREY : Nat := fcc 'G' 'R' 'E' 'Y'

-- VLC codec fourccs (from vlc_fourcc.h).
def VLC_CODEC_I420 : Nat := fcc 'I' '4' '2' '0'
def VLC_CODEC_YV12 : Nat := fcc 'Y' 'V' '1' '2'
def VLC_CODEC_I422 : Nat := fcc 'I' '4' '2' '2'
def VLC_CODEC_YUYV : Nat := fcc 'Y' 'U' 'Y' '2'
def VLC_CODEC_UYVY : Nat := fcc 'U' 'Y' 'V' 'Y'
def VLC_CODEC_YVYU : Nat := fcc 'Y' 'V' 'Y' 'U'
def VLC_CODEC_VYUY : Nat := fcc 'V' 'Y' 'U' 'Y'
def VLC_CODEC_I411 : Nat := fcc 'I' '4' '1' '1'
def VLC_CODEC_I410 : Nat := fcc 'I' '4' '1' '0'
def VLC_CODEC_NV12 : Nat := fcc 'N' 'V' '1' '2'
def VLC_CODEC_NV21 : Nat := fcc 'N' 'V' '2' '1'
def VLC_CODEC_RGB32 : Nat := fcc 'R' 'V' '3' '2'
def VLC_CODEC_RGB24 : Nat := fcc 'R' 'V' '2' '4'
def VLC_CODEC_RGB16 : Nat := fcc 'R' 'V' '1' '6'
def VLC_CODEC_RGB15 : Nat := fcc 'R' 'V' '1' '5'
def VLC_CODEC_MJPG : Nat := fcc 'M' 'J' 'P' 'G'
def VLC_CODEC_H264 : Nat := fcc 'h' '2' '6' '4'
def VLC_CODEC_MP4V : Nat := fcc 'm' 'p' '4' 'v'
def VLC_CODEC_H263 : Nat := fcc 'h' '2' '6' '3'
def VLC_CODEC_MPGV : Nat := fcc 'm' 'p' 'g' 'v'
def VLC_CODEC_VC1 : Nat := fcc 'V' 'C' '-' '1'
def VLC_CODEC_GREY : Nat := fcc 'G' 'R' 'E' 'Y'

/-- One entry of the static format table `v4l2_fmts` (struct `vlc_v4l2_fmt_t`
in demux.c): device-native fourcc, VLC output fourcc, RGB channel masks. -/
structure vlc_v4l2_fmt_t where
  v4l2 : Nat
  vlc : Nat
  red : Nat
  green : Nat
  blue : Nat
deriving DecidableEq, Repr

/-- The static preference table `v4l2_fmts` of demux.c, in source order
(little-endian build with `V4L2_PIX_FMT_H264` available, i.e. the `#else`
RGB branch and the H264 block of the original file). Earlier = preferred. -/
def v4l2_fmts : List vlc_v4l2_fmt_t := [
  ⟨V4L2_PIX_FMT_YUV420, VLC_CODEC_I420, 0, 0, 0⟩,
  ⟨V4L2_PIX_FMT_YVU420, VLC_CODEC_YV12, 0, 0, 0⟩,
  ⟨V4L2_PIX_FMT_YUV422P, VLC_CODEC_I422, 0, 0, 0⟩,
  ⟨V4L2_PIX_FMT_YUYV, VLC_CODEC_YUYV, 0, 0, 0⟩,
  ⟨V4L2_PIX_FMT_UYVY, VLC_CODEC_UYVY, 0, 0, 0⟩,
  ⟨V4L2_PIX_FMT_YVYU, VLC_CODEC_YVYU, 0, 0, 0⟩,
  ⟨V4L2_PIX_FMT_VYUY, VLC_CODEC_VYUY, 0, 0, 0⟩,
  ⟨V4L2_PIX_FMT_YUV411P, VLC_CODEC_I411, 0, 0, 0⟩,
  ⟨V4L2_PIX_FMT_YUV410, VLC_CODEC_I410, 0, 0, 0⟩,
  ⟨V4L2_PIX_FMT_NV12, VLC_CODEC_NV12, 0, 0, 0⟩,
  ⟨V4L2_PIX_FMT_NV21, VLC_CODEC_NV21, 0, 0, 0⟩,
  ⟨V4L2_PIX_FMT_RGB32, VLC_CODEC_RGB32, 0x0000FF, 0x00FF00, 0xFF0000⟩,
  ⟨V4L2_PIX_FMT_BGR32, VLC_CODEC_RGB32, 0xFF0000, 0x00FF00, 0x0000FF⟩,
  ⟨V4L2_PIX_FMT_RGB24, VLC_CODEC_RGB24, 0x0000FF, 0x00FF00, 0xFF0000⟩,
  ⟨V4L2_PIX_FMT_BGR24, VLC_CODEC_RGB24, 0xFF0000, 0x00FF00, 0x0000FF⟩,
  ⟨V4L2_PIX_FMT_RGB565, VLC_CODEC_RGB16, 0x001F, 0x07E0, 0xF800⟩,
  ⟨V4L2_PIX_FMT_RGB555, VLC_CODEC_RGB15, 0x001F, 0x03E0, 0x7C00⟩,
  ⟨V4L2_PIX_FMT_JPEG, VLC_CODEC_MJPG, 0, 0, 0⟩,
  ⟨V4L2_PIX_FMT_H264, VLC_CODEC_H264, 0, 0, 0⟩,
  ⟨V4L2_PIX_FMT_MPEG4, VLC_CODEC_MP4V, 0, 0, 0⟩,
  ⟨V4L2_PIX_FMT_XVID, VLC_CODEC_MP4V, 0, 0, 0⟩,
  ⟨V4L2_PIX_FMT_H263, VLC_CODEC_H263, 0, 0, 0⟩,
  ⟨V4L2_PIX_FMT_MPEG2, VLC_CODEC_MPGV, 0, 0, 0⟩,
  ⟨V4L2_PIX_FMT_MPEG1, VLC_CODEC_MPGV, 0, 0, 0⟩,
  ⟨V4L2_PIX_FMT_VC1_ANNEX_G, VLC_CODEC_VC1, 0, 0, 0⟩,
  ⟨V4L2_PIX_FMT_VC1_ANNEX_L, VLC_CODEC_VC1, 0, 0, 0⟩,
  ⟨V4L2_PIX_FMT_MJPEG, VLC_CODEC_MJPG, 0, 0, 0⟩,
  ⟨V4L2_PIX_FMT_GREY, VLC_CODEC_GREY, 0, 0, 0⟩]

/-- Helper for `vlc_from_v4l2_fourcc`: linear scan of the table carrying the
current index so the returned value models the C pointer (which determines
both the entry and its offset in the table). -/
def fmtLookupAux (fourcc : Nat) : Nat → List vlc_v4l2_fmt_t →
    Option (Nat × vlc_v4l2_fmt_t)
  | _, [] => none
  | i, f :: rest =>
    if f.v4l2 = fourcc then some (i, f) else fmtLookupAux fourcc (i + 1) rest

/-- `vlc_from_v4l2_fourcc` of demux.c: first table entry whose device fourcc
matches, returned together with its table position (the C pointer value). -/
def vlc_from_v4l2_fourcc (fourcc : Nat) : Option (Nat × vlc_v4l2_fmt_t) :=
  fmtLookupAux fourcc 0 v4l2_fmts

/-- `vlc_v4l2_fmt_rank` of demux.c: NULL ranks `SIZE_MAX`, otherwise the
pointer offset into the table. -/
def vlc_v4l2_fmt_rank : Option (Nat × vlc_v4l2_fmt_t) → Nat
  | none => SIZE_MAX
  | some dsc => dsc.1

/-- One enumerated format (`struct v4l2_fmtdesc`) as consulted by the
negotiation loop: the pixel format fourcc and the
`V4L2_FMT_FLAG_EMULATED` bit of its flags (the only flag the loop's control
flow reads; `V4L2_FMT_FLAG_COMPRESSED` is only logged). -/
structure v4l2_fmtdesc where
  pixelformat : Nat
  emulated : Bool
deriving DecidableEq, Repr

/-- The format-negotiation loop of `InitVideo` (demux.c lines 298-333).
`req` is the inherited requested fourcc (`0` when no chroma was requested,
as `var_InheritFourCC` returns `0` in that case), `selected`/`native` are
the loop's mutable state, and the list is the device's enumeration in
device-reported order. `break` on an exact request match becomes an
immediate return. -/
def negoLoop (req : Nat) (selected : Option (Nat × vlc_v4l2_fmt_t))
    (native : Bool) : List v4l2_fmtdesc → Option (Nat × vlc_v4l2_fmt_t)
  | [] => selected
  | codec :: rest =>
    match vlc_from_v4l2_fourcc codec.pixelformat with
    | none => negoLoop req selected native rest
    | some dsc =>
      if dsc.2.vlc = req then
        some dsc
      else if codec.emulated && native then
        negoLoop req selected native rest
      else
        let native2 := if codec.emulated then native else true
        if vlc_v4l2_fmt_rank (some dsc) > vlc_v4l2_fmt_rank selected then
          negoLoop req selected native2 rest
        else
          negoLoop req (some dsc) native2 rest

/-- Entry point of the negotiation: loop started with no candidate and the
`native` flag clear; `none` models the `selected == NULL` failure path
(`return -1`, "cannot negotiate supported video format"). -/
def InitVideoNegotiate (req : Nat) (encs : List v4l2_fmtdesc) :
    Option (Nat × vlc_v4l2_fmt_t) :=
  negoLoop req none false encs

/-- The sub-list of enumerated encodings that the request-free loop actually
lets reach its rank comparison: catalog-recognized entries, except emulated
ones enumerated after a catalog-recognized native entry (the `native` flag,
threaded as `b`). -/
def consideredAux (b : Bool) : List v4l2_fmtdesc → List (Nat × vlc_v4l2_fmt_t)
  | [] => []
  | codec :: rest =>
    match vlc_from_v4l2_fourcc codec.pixelformat with
    | none => consideredAux b rest
    | some dsc =>
      if codec.emulated then
        if b then consideredAux b rest else dsc :: consideredAux b rest
      else
        dsc :: consideredAux true rest

/-- The candidates considered by a full request-free negotiation run. -/
def considered (encs : List v4l2_fmtdesc) : List (Nat × vlc_v4l2_fmt_t) :=
  consideredAux false encs

/-- One rank-comparison update of the loop's `selected` variable:
`if (vlc_v4l2_fmt_rank (dsc) > vlc_v4l2_fmt_rank (selected)) continue;
selected = dsc;`. -/
def rankUpd (selected : Option (Nat × vlc_v4l2_fmt_t))
    (dsc : Nat × vlc_v4l2_fmt_t) : Option (Nat × vlc_v4l2_fmt_t) :=
  if vlc_v4l2_fmt_rank (some dsc) > vlc_v4l2_fmt_rank selected then selected
  else some dsc

-- Device capability bits (videodev2.h).
def V4L2_CAP_VIDEO_CAPTURE : Nat := 0x00000001
def V4L2_CAP_READWRITE : Nat := 0x01000000
def V4L2_CAP_STREAMING : Nat := 0x04000000

/-- The two I/O strategies of `demux_sys_t.io`. -/
inductive IoMethod where
  | IO_METHOD_READ
  | IO_METHOD_MMAP
deriving DecidableEq, Repr

/-- The I/O-strategy choice of `InitVideo` (demux.c lines 274-288): fail
without the capture capability, prefer memory mapping whenever the streaming
capability is present, fall back to direct reads, otherwise fail with
"no supported I/O method". C truth tests `caps & BIT` become `≠ 0`. -/
def InitVideoIo (caps : Nat) : Option IoMethod :=
  if caps &&& V4L2_CAP_VIDEO_CAPTURE = 0 then none
  else if caps &&& V4L2_CAP_STREAMING ≠ 0 then some .IO_METHOD_MMAP
  else if caps &&& V4L2_CAP_READWRITE ≠ 0 then some .IO_METHOD_READ
  else none

-- Interlacing field values (enum v4l2_field of videodev2.h).
def V4L2_FIELD_NONE : Nat := 1
def V4L2_FIELD_TOP : Nat := 2
def V4L2_FIELD_BOTTOM : Nat := 3
def V4L2_FIELD_INTERLACED : Nat := 4
def V4L2_FIELD_SEQ_TB : Nat := 5
def V4L2_FIELD_SEQ_BT : Nat := 6
def V4L2_FIELD_ALTERNATE : Nat := 7
def V4L2_FIELD_INTERLACED_TB : Nat := 8
def V4L2_FIELD_INTERLACED_BT : Nat := 9

/-- The per-block interlacing flag `sys->i_block_flags` can end up holding:
zero (from `calloc`), `BLOCK_FLAG_TOP_FIELD_FIRST`, or
`BLOCK_FLAG_BOTTOM_FIELD_FIRST`. -/
inductive BlockFlag where
  | noFlag
  | topFieldFirst
  | bottomFieldFirst
deriving DecidableEq, Repr

/-- The interlacing `switch (fmt.fmt.pix.field)` of `InitVideo`
(demux.c lines 362-402): resulting block flag and reported height. The
literal patterns are the `V4L2_FIELD_*` values 1-9 above; the `default`
branch (including `V4L2_FIELD_ANY = 0` and any unknown value) only warns. -/
def InitVideoInterlace (field : Nat) (height : Nat) : BlockFlag × Nat :=
  match field with
  | 1 => (.noFlag, height)
  | 2 => (.noFlag, height)
  | 3 => (.noFlag, height)
  | 4 => (.topFieldFirst, height)
  | 5 => (.noFlag, height)
  | 6 => (.noFlag, height)
  | 7 => (.noFlag, height * 2)
  | 8 => (.topFieldFirst, height)
  | 9 => (.bottomFieldFirst, height)
  | _ => (.noFlag, height)

/-- Modelled from the spec: the interlacing-mode-to-flag table of spec §4.3,
written from the spec's wording (progressive / top-only / bottom-only /
sequential / alternating map to no flag; generic interleaved and
interleaved-top-then-bottom map to top-field-first; interleaved-bottom-
then-top maps to bottom-field-first; unrecognized maps to no flag). -/
def specInterlaceFlag (field : Nat) : BlockFlag :=
  if field = V4L2_FIELD_INTERLACED ∨ field = V4L2_FIELD_INTERLACED_TB then
    .topFieldFirst
  else if field = V4L2_FIELD_INTERLACED_BT then .bottomFieldFirst
  else .noFlag

/-- Modelled from the spec: exactly the alternating-fields mode doubles the
reported frame height. -/
def specInterlaceHeight (field : Nat) (height : Nat) : Nat :=
  if field = V4L2_FIELD_ALTERNATE then 2 * height else height

/-- `VOUT_ASPECT_FACTOR` of vlc_vout.h: the fixed-point scale in which
display aspect ratios are carried. -/
def VOUT_ASPECT_FACTOR : Nat := 432000

def atoiAux : Nat → List Char → Nat
  | acc, [] => acc
  | acc, c :: rest =>
    if c.isDigit then atoiAux (acc * 10 + (c.toNat - 48)) rest else acc

/-- Modelled from libc `atoi` restricted to the unsigned digit-prefixed
strings this module feeds it ("W:H" aspect strings): parse the leading run
of decimal digits, 0 when the string starts with a non-digit. -/
def atoi (s : List Char) : Nat := atoiAux 0 s

/-- `strchr (str, ':')` as used by the aspect-ratio parsing: the suffix
after the first colon (`delim + 1`), or `none` when no colon occurs. -/
def strchrColon : List Char → Option (List Char)
  | [] => none
  | c :: rest => if c = ':' then some rest else strchrColon rest

/-- The display-aspect computation of `InitVideo` (demux.c lines 416-424):
`ar` defaults to `4 * VOUT_ASPECT_FACTOR / 3` and is replaced by
`atoi (str) * VOUT_ASPECT_FACTOR / atoi (delim + 1)` exactly when the
inherited aspect-ratio string exists and contains a colon. -/
def InitVideoAr (str : Option (List Char)) : Nat :=
  match str with
  | none => 4 * VOUT_ASPECT_FACTOR / 3
  | some s =>
    match strchrColon s with
    | none => 4 * VOUT_ASPECT_FACTOR / 3
    | some rest => atoi s * VOUT_ASPECT_FACTOR / atoi rest

/-- The published sample-aspect ratio (demux.c lines 425-426):
`i_sar_num = ar * i_height`, `i_sar_den = VOUT_ASPECT_FACTOR * i_width`. -/
def InitVideoSar (str : Option (List Char)) (width height : Nat) :
    Nat × Nat :=
  (InitVideoAr str * height, VOUT_ASPECT_FACTOR * width)

/-- `EINTR` on Linux. -/
def EINTR : Nat := 4

/-- One `poll` call's result: failure (-1) with an `errno`, or success with
the returned `revents` of the single watched descriptor (0 when the 500 ms
timeout elapsed with nothing ready). -/
inductive PollAttempt where
  | pollFailed (errno : Nat)
  | pollReturned (revents : Nat)
deriving DecidableEq, Repr

/-- Outcome of the wait phase of `Demux` (demux.c lines 590-598):
`fatal` models `return -1` after the "poll error" message, `noFrame` models
`return 1` with no frame produced this cycle, `dataReady` models falling
through to the read/dequeue phase, and `exhausted` marks running off the
end of the finite attempt list (the real loop blocks forever instead). -/
inductive WaitOutcome where
  | fatal
  | noFrame
  | dataReady (revents : Nat)
  | exhausted
deriving DecidableEq, Repr

/-- The `while (poll (&ufd, 1, 500) == -1)` retry loop plus the
`if (ufd.revents == 0) return 1;` check of `Demux`, driven by a finite list
of poll results. -/
def DemuxWait : List PollAttempt → WaitOutcome
  | [] => .exhausted
  | .pollFailed e :: rest => if e ≠ EINTR then .fatal else DemuxWait rest
  | .pollReturned rv :: _ => if rv = 0 then .noFrame else .dataReady rv

/-- The externally visible steps of `DemuxClose` (demux.c lines 474-525),
in program order. -/
inductive CloseEvent where
  | dqbuf
  | streamoff
  | freeReadBlock
  | munmapBuf (i : Nat)
  | freeBufArray
  | controlsDeinit
  | closeFd
  | freeSys
deriving DecidableEq, Repr

/-- The event trace of `DemuxClose`: for the memory-mapped strategy, one
`VIDIOC_DQBUF` per pool slot followed by `VIDIOC_STREAMOFF`; then, when
`sys->p_buffers` is non-NULL, the buffer release (free of the read block, or
`v4l2_munmap` of each mapped buffer) and `free (sys->p_buffers)`; then
controls teardown, closing the descriptor and freeing the session. -/
def DemuxCloseTrace (io : IoMethod) (nbuffers : Nat) (hasBufArray : Bool) :
    List CloseEvent :=
  (match io with
   | .IO_METHOD_READ => []
   | .IO_METHOD_MMAP =>
     (List.range nbuffers).map (fun _ => CloseEvent.dqbuf) ++
       [CloseEvent.streamoff]) ++
  (if hasBufArray then
     (match io with
      | .IO_METHOD_READ => [CloseEvent.freeReadBlock]
      | .IO_METHOD_MMAP => (List.range nbuffers).map CloseEvent.munmapBuf) ++
     [CloseEvent.freeBufArray]
   else []) ++
  [CloseEvent.controlsDeinit, CloseEvent.closeFd, CloseEvent.freeSys]

def isStreamoff : CloseEvent → Bool := fun e =>
  match e with
  | .streamoff => true
  | _ => false

def isMunmap : CloseEvent → Bool := fun e =>
  match e with
  | .munmapBuf _ => true
  | _ => false

/-- The ordering invariant claimed for teardown: every buffer unmapping
occurs strictly before the first `VIDIOC_STREAMOFF` (vacuously true when the
trace has no streamoff). -/
def unmapsPrecedeStreamoff (tr : List CloseEvent) : Bool :=
  (tr.dropWhile (fun e => !isStreamoff e)).all (fun e => !isMunmap e)

-- Result codes of vlc_common.h used by GetPackedYuvOffsets.
def VLC_SUCCESS : Int := 0
def VLC_EGENERIC : Int := -666

/-- `GetPackedYuvOffsets` of `modules/video_filter/filter_picture.h`: the
C out-parameters `*i_y_offset`, `*i_u_offset`, `*i_v_offset` become incoming
values `y u v` returned unchanged on the error path, and the result is
`(return code, final y, final u, final v)`. The grouped `case` labels of the
source switch become disjunctions, in source order. -/
def GetPackedYuvOffsets (i_chroma : Nat) (y u v : Int) :
    Int × Int × Int × Int :=
  if i_chroma = fcc 'U' 'Y' 'V' 'Y' ∨ i_chroma = fcc 'U' 'Y' 'N' 'V' ∨
      i_chroma = fcc 'Y' '4' '2' '2' ∨ i_chroma = fcc 'c' 'y' 'u' 'v' then
    (VLC_SUCCESS, 1, 0, 2)
  else if i_chroma = fcc 'Y' 'U' 'Y' '2' ∨ i_chroma = fcc 'Y' 'U' 'N' 'V' then
    (VLC_SUCCESS, 0, 1, 3)
  else if i_chroma = fcc 'Y' 'V' 'Y' 'U' then
    (VLC_SUCCESS, 0, 3, 1)
  else
    (VLC_EGENERIC, y, u, v)

theorem fmtLookupAux_sound (fourcc : Nat) :
    ∀ (l : List vlc_v4l2_fmt_t) (i : Nat) (dsc : Nat × vlc_v4l2_fmt_t),
    fmtLookupAux fourcc i l = some dsc →
    i ≤ dsc.1 ∧ l.get? (dsc.1 - i) = some dsc.2 := by
  intro l
  induction l with
  | nil => intro i dsc h; simp [fmtLookupAux] at h
  | cons f rest ih =>
    intro i dsc h
    by_cases hv : f.v4l2 = fourcc
    · simp only [fmtLookupAux, if_pos hv, Option.some.injEq] at h
      subst h
      exact ⟨Nat.le_refl i, by simp⟩
    · simp only [fmtLookupAux, if_neg hv] at h
      obtain ⟨h1, h2⟩ := ih (i + 1) dsc h
      refine ⟨by omega, ?_⟩
      have he : dsc.1 - i = (dsc.1 - (i + 1)) + 1 := by omega
      rw [he, List.get?_cons_succ]
      exact h2

/-- A successful catalog lookup returns a table position together with the
entry stored at that position. -/
theorem vlc_from_v4l2_fourcc_get? (fourcc : Nat) (dsc : Nat × vlc_v4l2_fmt_t)
    (h : vlc_from_v4l2_fourcc fourcc = some dsc) :
    v4l2_fmts.get? dsc.1 = some dsc.2 := by
  have := (fmtLookupAux_sound fourcc v4l2_fmts 0 dsc h).2
  simpa using this

theorem lookup_rank_lt_length (fourcc : Nat) (dsc : Nat × vlc_v4l2_fmt_t)
    (h : vlc_from_v4l2_fourcc fourcc = some dsc) :
    dsc.1 < v4l2_fmts.length := by
  have hg := vlc_from_v4l2_fourcc_get? fourcc dsc h
  by_contra hlt
  rw [List.get?_eq_none.mpr (by omega)] at hg
  exact Option.noConfusion hg

/-- Every entry of the catalog table has a nonzero VLC fourcc, hence no
lookup result ever matches the `reqfourcc = 0` sentinel used when no output
chroma was requested. -/
theorem lookup_vlc_ne_zero (fourcc : Nat) (dsc : Nat × vlc_v4l2_fmt_t)
    (h : vlc_from_v4l2_fourcc fourcc = some dsc) : dsc.2.vlc ≠ 0 := by
  have hg := vlc_from_v4l2_fourcc_get? fourcc dsc h
  have hm : dsc.2 ∈ v4l2_fmts := List.get?_mem hg
  have hall : ∀ f ∈ v4l2_fmts, f.vlc ≠ 0 := by decide
  exact hall dsc.2 hm

/-! Step lemmas: one unfolding of `negoLoop` per shape of the head entry. -/

theorem negoLoop_cons_none (req : Nat) (sel : Option (Nat × vlc_v4l2_fmt_t))
    (b : Bool) (codec : v4l2_fmtdesc) (rest : List v4l2_fmtdesc)
    (h : vlc_from_v4l2_fourcc codec.pixelformat = none) :
    negoLoop req sel b (codec :: rest) = negoLoop req sel b rest := by
  simp [negoLoop, h]

theorem negoLoop_cons_match (req : Nat) (sel : Option (Nat × vlc_v4l2_fmt_t))
    (b : Bool) (codec : v4l2_fmtdesc) (rest : List v4l2_fmtdesc)
    (dsc : Nat × vlc_v4l2_fmt_t)
    (h : vlc_from_v4l2_fourcc codec.pixelformat = some dsc)
    (hm : dsc.2.vlc = req) :
    negoLoop req sel b (codec :: rest) = some dsc := by
  simp [negoLoop, h, hm]

theorem negoLoop_cons_skip (req : Nat) (sel : Option (Nat × vlc_v4l2_fmt_t))
    (codec : v4l2_fmtdesc) (rest : List v4l2_fmtdesc)
    (dsc : Nat × vlc_v4l2_fmt_t)
    (h : vlc_from_v4l2_fourcc codec.pixelformat = some dsc)
    (hm : dsc.2.vlc ≠ req) (he : codec.emulated = true) :
    negoLoop req sel true (codec :: rest) = negoLoop req sel true rest := by
  simp [negoLoop, h, hm, he]

theorem negoLoop_cons_rank (req : Nat) (sel : Option (Nat × vlc_v4l2_fmt_t))
    (b : Bool) (codec : v4l2_fmtdesc) (rest : List v4l2_fmtdesc)
    (dsc : Nat × vlc_v4l2_fmt_t)
    (h : vlc_from_v4l2_fourcc codec.pixelformat = some dsc)
    (hm : dsc.2.vlc ≠ req) (hnb : codec.emulated = true → b = false) :
    negoLoop req sel b (codec :: rest) =
      negoLoop req (rankUpd sel dsc) (if codec.emulated then b else true)
        rest := by
  cases he : codec.emulated with
  | true =>
    have hb := hnb he
    subst hb
    simp only [negoLoop, h, he, if_neg hm, Bool.and_false, Bool.false_eq_true,
      if_false, if_true]
    unfold rankUpd
    split <;> rfl
  | false =>
    simp only [negoLoop, h, he, if_neg hm, Bool.false_and, Bool.false_eq_true,
      if_false]
    unfold rankUpd
    split <;> rfl

/-! Step lemmas for `consideredAux`, mirroring the loop. -/

theorem consideredAux_cons_none (b : Bool) (codec : v4l2_fmtdesc)
    (rest : List v4l2_fmtdesc)
    (h : vlc_from_v4l2_fourcc codec.pixelformat = none) :
    consideredAux b (codec :: rest) = consideredAux b rest := by
  simp [consideredAux, h]

theorem consideredAux_cons_skip (codec : v4l2_fmtdesc)
    (rest : List v4l2_fmtdesc) (dsc : Nat × vlc_v4l2_fmt_t)
    (h : vlc_from_v4l2_fourcc codec.pixelformat = some dsc)
    (he : codec.emulated = true) :
    consideredAux true (codec :: rest) = consideredAux true rest := by
  simp [consideredAux, h, he]

theorem consideredAux_cons_keep (b : Bool) (codec : v4l2_fmtdesc)
    (rest : List v4l2_fmtdesc) (dsc : Nat × vlc_v4l2_fmt_t)
    (h : vlc_from_v4l2_fourcc codec.pixelformat = some dsc)
    (hnb : codec.emulated = true → b = false) :
    consideredAux b (codec :: rest) =
      dsc :: consideredAux (if codec.emulated then b else true) rest := by
  cases he : codec.emulated with
  | true => have hb := hnb he; subst hb; simp [consideredAux, h, he]
  | false => simp [consideredAux, h, he]

/-- The request-free negotiation loop is the fold of the rank update over the
considered candidates. -/
theorem negoLoop_zero_foldl :
    ∀ (encs : List v4l2_fmtdesc) (sel : Option (Nat × vlc_v4l2_fmt_t))
      (b : Bool),
    negoLoop 0 sel b encs = (consideredAux b encs).foldl rankUpd sel := by
  intro encs
  induction encs with
  | nil => intro sel b; rfl
  | cons codec rest ih =>
    intro sel b
    cases h : vlc_from_v4l2_fourcc codec.pixelformat with
    | none => rw [negoLoop_cons_none _ _ _ _ _ h, consideredAux_cons_none _ _ _ h]; exact ih sel b
    | some dsc =>
      have hvlc : dsc.2.vlc ≠ 0 := lookup_vlc_ne_zero _ _ h
      by_cases hskip : codec.emulated = true ∧ b = true
      · obtain ⟨he, hb⟩ := hskip
        subst hb
        rw [negoLoop_cons_skip _ _ _ _ _ h hvlc he,
          consideredAux_cons_skip _ _ _ h he]
        exact ih sel true
      · have hnb : codec.emulated = true → b = false := by
          intro he
          cases hb : b with
          | true => exact absurd ⟨he, hb⟩ hskip
          | false => rfl
        rw [negoLoop_cons_rank _ _ _ _ _ _ h hvlc hnb,
          consideredAux_cons_keep _ _ _ _ h hnb, List.foldl_cons]
        exact ih (rankUpd sel dsc) _

theorem foldl_rankUpd_rank_le :
    ∀ (l : List (Nat × vlc_v4l2_fmt_t)) (sel : Option (Nat × vlc_v4l2_fmt_t)),
    vlc_v4l2_fmt_rank (l.foldl rankUpd sel) ≤ vlc_v4l2_fmt_rank sel := by
  intro l
  induction l with
  | nil => intro sel; exact Nat.le_refl _
  | cons d t ih =>
    intro sel
    have h1 := ih (rankUpd sel d)
    have h2 : vlc_v4l2_fmt_rank (rankUpd sel d) ≤ vlc_v4l2_fmt_rank sel := by
      unfold rankUpd
      split
      · exact Nat.le_refl _
      · simp only [vlc_v4l2_fmt_rank] at *; omega
    exact Nat.le_trans h1 h2

theorem foldl_rankUpd_min :
    ∀ (l : List (Nat × vlc_v4l2_fmt_t)) (sel : Option (Nat × vlc_v4l2_fmt_t))
      (d : Nat × vlc_v4l2_fmt_t), d ∈ l →
    vlc_v4l2_fmt_rank (l.foldl rankUpd sel) ≤ d.1 := by
  intro l
  induction l with
  | nil => intro sel d hd; simp at hd
  | cons a t ih =>
    intro sel d hd
    rcases List.mem_cons.mp hd with h | h
    · subst h
      have h1 := foldl_rankUpd_rank_le t (rankUpd sel d)
      have h2 : vlc_v4l2_fmt_rank (rankUpd sel d) ≤ d.1 := by
        unfold rankUpd
        split
        · simp only [vlc_v4l2_fmt_rank] at *; omega
        · exact Nat.le_refl _
      exact Nat.le_trans h1 h2
    · exact ih (rankUpd sel a) d h

theorem foldl_rankUpd_mem :
    ∀ (l : List (Nat × vlc_v4l2_fmt_t)) (sel : Option (Nat × vlc_v4l2_fmt_t)),
    l.foldl rankUpd sel = sel ∨ ∃ d ∈ l, l.foldl rankUpd sel = some d := by
  intro l
  induction l with
  | nil => intro sel; exact Or.inl rfl
  | cons a t ih =>
    intro sel
    rcases ih (rankUpd sel a) with h | ⟨d, hd, hfd⟩
    · rw [List.foldl_cons, h]
      unfold rankUpd
      split
      · exact Or.inl rfl
      · exact Or.inr ⟨a, List.mem_cons_self a t, rfl⟩
    · exact Or.inr ⟨d, List.mem_cons_of_mem a hd, by rw [List.foldl_cons]; exact hfd⟩

/-- A catalog-recognized, non-emulated enumerated encoding is always among
the considered candidates, whatever the incoming `native` flag. -/
theorem mem_consideredAux_of_native :
    ∀ (encs : List v4l2_fmtdesc) (b : Bool) (e : v4l2_fmtdesc)
      (dsc : Nat × vlc_v4l2_fmt_t),
    e ∈ encs → e.emulated = false →
    vlc_from_v4l2_fourcc e.pixelformat = some dsc →
    dsc ∈ consideredAux b encs := by
  intro encs
  induction encs with
  | nil => intro b e dsc he; simp at he
  | cons c rest ih =>
    intro b e dsc he hem hlk
    rcases List.mem_cons.mp he with h | h
    · subst h
      rw [consideredAux_cons_keep b e rest dsc hlk
        (fun hcontra => absurd (hem ▸ hcontra) (by simp))]
      exact List.mem_cons_self _ _
    · cases hc : vlc_from_v4l2_fourcc c.pixelformat with
      | none =>
        rw [consideredAux_cons_none _ _ _ hc]
        exact ih b e dsc h hem hlk
      | some d0 =>
        by_cases hskip : c.emulated = true ∧ b = true
        · obtain ⟨hce, hb⟩ := hskip
          subst hb
          rw [consideredAux_cons_skip _ _ _ hc hce]
          exact ih true e dsc h hem hlk
        · have hnb : c.emulated = true → b = false := by
            intro hce
            cases hb : b with
            | true => exact absurd ⟨hce, hb⟩ hskip
            | false => rfl
          rw [consideredAux_cons_keep _ _ _ _ hc hnb]
          exact List.mem_cons_of_mem d0 (ih _ e dsc h hem hlk)

/-- Every considered candidate is a real table position paired with the
entry stored there (it came out of a catalog lookup). -/
theorem considered_get? :
    ∀ (encs : List v4l2_fmtdesc) (b : Bool) (dsc : Nat × vlc_v4l2_fmt_t),
    dsc ∈ consideredAux b encs → v4l2_fmts.get? dsc.1 = some dsc.2 := by
  intro encs
  induction encs with
  | nil => intro b dsc h; simp [consideredAux] at h
  | cons c rest ih =>
    intro b dsc h
    cases hc : vlc_from_v4l2_fourcc c.pixelformat with
    | none =>
      rw [consideredAux_cons_none _ _ _ hc] at h
      exact ih b dsc h
    | some d0 =>
      by_cases hskip : c.emulated = true ∧ b = true
      · obtain ⟨hce, hb⟩ := hskip
        subst hb
        rw [consideredAux_cons_skip _ _ _ hc hce] at h
        exact ih true dsc h
      · have hnb : c.emulated = true → b = false := by
          intro hce
          cases hb : b with
          | true => exact absurd ⟨hce, hb⟩ hskip
          | false => rfl
        rw [consideredAux_cons_keep _ _ _ _ hc hnb] at h
        rcases List.mem_cons.mp h with h | h
        · subst h; exact vlc_from_v4l2_fourcc_get? _ _ hc
        · exact ih _ dsc h

/-- With the `native` flag already set, the loop treats the remaining
enumeration exactly as if its emulated entries were absent. -/
theorem negoLoop_native_skips_emulated :
    ∀ (rest : List v4l2_fmtdesc) (sel : Option (Nat × vlc_v4l2_fmt_t)),
    negoLoop 0 sel true rest =
      negoLoop 0 sel true (rest.filter (fun e => !e.emulated)) := by
  intro rest
  induction rest with
  | nil => intro sel; rfl
  | cons e t ih =>
    intro sel
    cases he : e.emulated with
    | true =>
      have hf : (e :: t).filter (fun x => !x.emulated) =
          t.filter (fun x => !x.emulated) := by simp [List.filter, he]
      rw [hf]
      cases hc : vlc_from_v4l2_fourcc e.pixelformat with
      | none => rw [negoLoop_cons_none _ _ _ _ _ hc]; exact ih sel
      | some dsc =>
        rw [negoLoop_cons_skip _ _ _ _ _ hc (lookup_vlc_ne_zero _ _ hc) he]
        exact ih sel
    | false =>
      have hf : (e :: t).filter (fun x => !x.emulated) =
          e :: t.filter (fun x => !x.emulated) := by simp [List.filter, he]
      rw [hf]
      cases hc : vlc_from_v4l2_fourcc e.pixelformat with
      | none =>
        rw [negoLoop_cons_none _ _ _ _ _ hc, negoLoop_cons_none _ _ _ _ _ hc]
        exact ih sel
      | some dsc =>
        have hvlc := lookup_vlc_ne_zero _ _ hc
        have hnb : e.emulated = true → true = false := by
          intro h2; rw [he] at h2; exact absurd h2 (by simp)
        rw [negoLoop_cons_rank _ _ _ _ _ _ hc hvlc hnb,
          negoLoop_cons_rank _ _ _ _ _ _ hc hvlc hnb]
        simp only [he, Bool.false_eq_true, if_false]
        exact ih _

theorem c2_aux :
    ∀ (p rest : List v4l2_fmtdesc) (sel : Option (Nat × vlc_v4l2_fmt_t))
      (b : Bool),
    ((∃ e ∈ p, e.emulated = false ∧
        vlc_from_v4l2_fourcc e.pixelformat ≠ none) ∨ b = true) →
    negoLoop 0 sel b (p ++ rest) =
      negoLoop 0 sel b (p ++ rest.filter (fun e => !e.emulated)) := by
  intro p
  induction p with
  | nil =>
    intro rest sel b h
    rcases h with ⟨e, he, _⟩ | hb
    · simp at he
    · subst hb
      simpa using negoLoop_native_skips_emulated rest sel
  | cons c p2 ih =>
    intro rest sel b h
    cases hc : vlc_from_v4l2_fourcc c.pixelformat with
    | none =>
      rw [List.cons_append, List.cons_append, negoLoop_cons_none _ _ _ _ _ hc,
        negoLoop_cons_none _ _ _ _ _ hc]
      apply ih
      rcases h with ⟨e, he, hp⟩ | hb
      · rcases List.mem_cons.mp he with rfl | hmem
        · exact absurd hc hp.2
        · exact Or.inl ⟨e, hmem, hp⟩
      · exact Or.inr hb
    | some dsc =>
      have hvlc := lookup_vlc_ne_zero _ _ hc
      by_cases hskip : c.emulated = true ∧ b = true
      · obtain ⟨hce, hb⟩ := hskip
        subst hb
        rw [List.cons_append, List.cons_append,
          negoLoop_cons_skip _ _ _ _ _ hc hvlc hce,
          negoLoop_cons_skip _ _ _ _ _ hc hvlc hce]
        exact ih rest sel true (Or.inr rfl)
      · have hnb : c.emulated = true → b = false := by
          intro hce
          cases hb : b with
          | true => exact absurd ⟨hce, hb⟩ hskip
          | false => rfl
        rw [List.cons_append, List.cons_append,
          negoLoop_cons_rank _ _ _ _ _ _ hc hvlc hnb,
          negoLoop_cons_rank _ _ _ _ _ _ hc hvlc hnb]
        apply ih
        cases hce : c.emulated with
        | false => simp
        | true =>
          left
          rcases h with ⟨e, he, hp⟩ | hb
          · rcases List.mem_cons.mp he with rfl | hmem
            · rw [hp.1] at hce; exact absurd hce (by simp)
            · exact ⟨e, hmem, hp⟩
          · have hbf := hnb hce
            rw [hbf] at hb
            exact absurd hb (by simp)

/-- C2: once a catalog-recognized native (non-emulated) encoding has been
processed by the loop — in particular whenever one has been accepted as the
current best candidate — every later-enumerated emulated encoding is skipped
outright: the negotiation result is the same as if those emulated entries
had never been enumerated, regardless of their catalog rank. Stated for the
request-free run (`reqfourcc = 0`); an explicitly requested encoding takes
the separate short-circuit path of demux.c line 314. -/
theorem InitVideoNegotiate_native_blocks_emulated
    (p rest : List v4l2_fmtdesc)
    (h : ∃ e ∈ p, e.emulated = false ∧
        vlc_from_v4l2_fourcc e.pixelformat ≠ none) :
    InitVideoNegotiate 0 (p ++ rest) =
      InitVideoNegotiate 0 (p ++ rest.filter (fun e => !e.emulated)) :=
  c2_aux p rest none false (Or.inl h)

/-- Witness for C2: after the native YUYV entry, the low-ranked emulated
YUV420 entry is ignored. -/
theorem InitVideoNegotiate_native_blocks_emulated_witness :
    InitVideoNegotiate 0
      ([⟨V4L2_PIX_FMT_YUYV, false⟩] ++ [⟨V4L2_PIX_FMT_YUV420, true⟩]) =
    InitVideoNegotiate 0
      ([⟨V4L2_PIX_FMT_YUYV, false⟩] ++
        [⟨V4L2_PIX_FMT_YUV420, true⟩].filter (fun e => !e.emulated)) :=
  InitVideoNegotiate_native_blocks_emulated _ _ (by decide)

/-- C1 (amended): with no requested chroma, negotiation returns the
lowest-ranked entry among the *considered* candidates: all catalog-recognized
non-emulated entries, plus the catalog-recognized emulated entries enumerated
before the first catalog-recognized non-emulated one. Equal ranks only arise
for one and the same table entry, so the tie case never changes the
selection. -/
theorem InitVideoNegotiate_min_rank_considered (encs : List v4l2_fmtdesc)
    (h : ∃ e ∈ encs, e.emulated = false ∧
        vlc_from_v4l2_fourcc e.pixelformat ≠ none) :
    ∃ dsc, InitVideoNegotiate 0 encs = some dsc ∧ dsc ∈ considered encs ∧
      (∀ d2 ∈ considered encs, dsc.1 ≤ d2.1) ∧
      (∀ d2 ∈ considered encs, d2.1 = dsc.1 → d2 = dsc) := by
  obtain ⟨e, he, hem, hlk⟩ := h
  obtain ⟨dsc0, hd0⟩ := Option.ne_none_iff_exists'.mp hlk
  have hm0 : dsc0 ∈ considered encs :=
    mem_consideredAux_of_native encs false e dsc0 he hem hd0
  have heq : InitVideoNegotiate 0 encs = (considered encs).foldl rankUpd none :=
    negoLoop_zero_foldl encs none false
  have hlen : dsc0.1 < v4l2_fmts.length := by
    have hg := considered_get? encs false dsc0 hm0
    by_contra hlt
    rw [List.get?_eq_none.mpr (by omega)] at hg
    exact Option.noConfusion hg
  have hl28 : v4l2_fmts.length = 28 := by rfl
  have hmin := foldl_rankUpd_min (considered encs) none dsc0 hm0
  rcases foldl_rankUpd_mem (considered encs) none with hnone | ⟨d, hd, hfd⟩
  · exfalso
    rw [hnone] at hmin
    have h1 : SIZE_MAX ≤ dsc0.1 := hmin
    rw [SIZE_MAX] at h1
    norm_num at h1
    omega
  · refine ⟨d, by rw [heq]; exact hfd, hd, ?_, ?_⟩
    · intro d2 hd2
      have hle := foldl_rankUpd_min (considered encs) none d2 hd2
      rw [hfd] at hle
      exact hle
    · intro d2 hd2 hrank
      have hg1 := considered_get? encs false d hd
      have hg2 := considered_get? encs false d2 hd2
      rw [hrank, hg1] at hg2
      exact Prod.ext hrank (Option.some.inj hg2).symm

/-- Witness for C1 (amended), at a one-entry native enumeration. -/
theorem InitVideoNegotiate_min_rank_considered_witness :
    ∃ dsc, InitVideoNegotiate 0 [⟨V4L2_PIX_FMT_YUYV, false⟩] = some dsc ∧
      dsc ∈ considered [⟨V4L2_PIX_FMT_YUYV, false⟩] ∧
      (∀ d2 ∈ considered [⟨V4L2_PIX_FMT_YUYV, false⟩], dsc.1 ≤ d2.1) ∧
      (∀ d2 ∈ considered [⟨V4L2_PIX_FMT_YUYV, false⟩],
        d2.1 = dsc.1 → d2 = dsc) :=
  InitVideoNegotiate_min_rank_considered _ (by decide)

/-- C1 counterexample to the claim as stated: the enumeration
`[emulated YUV420 (rank 0), native YVU420 (rank 1)]` contains a
catalog-recognized non-emulated entry whose lookup, `(1, YV12)`, is the only
— hence lowest-ranked — non-emulated candidate, yet negotiation returns the
*emulated* rank-0 entry `(0, I420)`, because an emulated encoding enumerated
before any native one is accepted and a native entry of worse rank cannot
displace it. -/
theorem c1_counterexample_emulated_wins :
    InitVideoNegotiate 0
        [⟨V4L2_PIX_FMT_YUV420, true⟩, ⟨V4L2_PIX_FMT_YVU420, false⟩] =
      some (0, ⟨V4L2_PIX_FMT_YUV420, VLC_CODEC_I420, 0, 0, 0⟩) ∧
    ([(⟨V4L2_PIX_FMT_YUV420, true⟩ : v4l2_fmtdesc),
        ⟨V4L2_PIX_FMT_YVU420, false⟩].filter (fun e => !e.emulated)).filterMap
        (fun e => vlc_from_v4l2_fourcc e.pixelformat) =
      [(1, ⟨V4L2_PIX_FMT_YVU420, VLC_CODEC_YV12, 0, 0, 0⟩)] ∧
    InitVideoNegotiate 0
        [⟨V4L2_PIX_FMT_YUV420, true⟩, ⟨V4L2_PIX_FMT_YVU420, false⟩] ≠
      some (1, ⟨V4L2_PIX_FMT_YVU420, VLC_CODEC_YV12, 0, 0, 0⟩) := by
  decide

theorem c3_aux (req : Nat) (codec : v4l2_fmtdesc) (rest : List v4l2_fmtdesc)
    (dsc : Nat × vlc_v4l2_fmt_t)
    (hlk : vlc_from_v4l2_fourcc codec.pixelformat = some dsc)
    (hmatch : dsc.2.vlc = req) :
    ∀ (p : List v4l2_fmtdesc) (sel : Option (Nat × vlc_v4l2_fmt_t))
      (b : Bool),
    (∀ e ∈ p, ∀ d2, vlc_from_v4l2_fourcc e.pixelformat = some d2 →
      d2.2.vlc ≠ req) →
    negoLoop req sel b (p ++ codec :: rest) = some dsc := by
  intro p
  induction p with
  | nil =>
    intro sel b _
    rw [List.nil_append]
    exact negoLoop_cons_match req sel b codec rest dsc hlk hmatch
  | cons c p2 ih =>
    intro sel b hnone
    have hp2 : ∀ e ∈ p2, ∀ d2,
        vlc_from_v4l2_fourcc e.pixelformat = some d2 → d2.2.vlc ≠ req :=
      fun e hmem => hnone e (List.mem_cons_of_mem c hmem)
    cases hc : vlc_from_v4l2_fourcc c.pixelformat with
    | none =>
      rw [List.cons_append, negoLoop_cons_none _ _ _ _ _ hc]
      exact ih sel b hp2
    | some d0 =>
      have hne : d0.2.vlc ≠ req := hnone c (List.mem_cons_self c p2) d0 hc
      by_cases hskip : c.emulated = true ∧ b = true
      · obtain ⟨hce, hb⟩ := hskip
        subst hb
        rw [List.cons_append, negoLoop_cons_skip _ _ _ _ _ hc hne hce]
        exact ih sel true hp2
      · have hnb : c.emulated = true → b = false := by
          intro hce
          cases hb : b with
          | true => exact absurd ⟨hce, hb⟩ hskip
          | false => rfl
        rw [List.cons_append, negoLoop_cons_rank _ _ _ _ _ _ hc hne hnb]
        exact ih _ _ hp2

/-- C3: if an output encoding is explicitly requested, the first enumerated
entry whose catalog output encoding matches it exactly is selected — whatever
its rank or emulation flag — and everything enumerated after it is ignored
(the result does not depend on `rest`). -/
theorem InitVideoNegotiate_request_short_circuit (req : Nat)
    (p : List v4l2_fmtdesc) (codec : v4l2_fmtdesc)
    (rest : List v4l2_fmtdesc) (dsc : Nat × vlc_v4l2_fmt_t)
    (hlk : vlc_from_v4l2_fourcc codec.pixelformat = some dsc)
    (hmatch : dsc.2.vlc = req)
    (hfirst : ∀ e ∈ p, ∀ d2, vlc_from_v4l2_fourcc e.pixelformat = some d2 →
      d2.2.vlc ≠ req) :
    InitVideoNegotiate req (p ++ codec :: rest) = some dsc :=
  c3_aux req codec rest dsc hlk hmatch p none false hfirst

/-- Witness for C3: requesting YV12 selects the (even emulated) YVU420 entry
over a better-ranked earlier entry and ignores the rest. -/
theorem InitVideoNegotiate_request_short_circuit_witness :
    InitVideoNegotiate VLC_CODEC_YV12
      ([⟨V4L2_PIX_FMT_YUV420, false⟩] ++ (⟨V4L2_PIX_FMT_YVU420, true⟩ : v4l2_fmtdesc) ::
        [⟨V4L2_PIX_FMT_YUYV, false⟩]) =
    some (1, ⟨V4L2_PIX_FMT_YVU420, VLC_CODEC_YV12, 0, 0, 0⟩) :=
  InitVideoNegotiate_request_short_circuit VLC_CODEC_YV12 _ _ _ _
    (by decide) (by decide)
    (by
      intro e he d2 hd2
      obtain rfl := List.mem_singleton.mp he
      have h0 : vlc_from_v4l2_fourcc V4L2_PIX_FMT_YUV420 =
          some (0, ⟨V4L2_PIX_FMT_YUV420, VLC_CODEC_I420, 0, 0, 0⟩) := by decide
      obtain rfl := Option.some.inj (h0.symm.trans hd2)
      decide)

theorem negoLoop_all_unrecognized :
    ∀ (l : List v4l2_fmtdesc) (req : Nat)
      (sel : Option (Nat × vlc_v4l2_fmt_t)) (b : Bool),
    (∀ e ∈ l, vlc_from_v4l2_fourcc e.pixelformat = none) →
    negoLoop req sel b l = sel := by
  intro l
  induction l with
  | nil => intro req sel b _; rfl
  | cons c t ih =>
    intro req sel b h
    rw [negoLoop_cons_none _ _ _ _ _ (h c (List.mem_cons_self c t))]
    exact ih req sel b (fun e hmem => h e (List.mem_cons_of_mem c hmem))

/-- C8: if no enumerated encoding is recognized by the catalog, negotiation
produces no candidate (`selected == NULL`), which is exactly the
`return -1` setup-failure path of `InitVideo`. -/
theorem InitVideoNegotiate_fails_no_catalog (req : Nat)
    (l : List v4l2_fmtdesc)
    (h : ∀ e ∈ l, vlc_from_v4l2_fourcc e.pixelformat = none) :
    InitVideoNegotiate req l = none :=
  negoLoop_all_unrecognized l req none false h

/-- Witness for C8: an enumeration holding only an unknown fourcc fails. -/
theorem InitVideoNegotiate_fails_no_catalog_witness :
    InitVideoNegotiate 0 [⟨fcc 'X' 'X' 'X' 'X', false⟩] = none :=
  InitVideoNegotiate_fails_no_catalog 0 _ (by decide)

/-- C7: for every capability word, setup fails without the capture bit;
with it, memory mapping is chosen whenever streaming is available (even if
read/write also is), direct read is chosen when only read/write is, and
setup fails ("no supported I/O method") when neither is. -/
theorem InitVideoIo_strategy_choice (caps : Nat) :
    (caps &&& V4L2_CAP_VIDEO_CAPTURE = 0 → InitVideoIo caps = none) ∧
    (caps &&& V4L2_CAP_VIDEO_CAPTURE ≠ 0 → caps &&& V4L2_CAP_STREAMING ≠ 0 →
      InitVideoIo caps = some .IO_METHOD_MMAP) ∧
    (caps &&& V4L2_CAP_VIDEO_CAPTURE ≠ 0 → caps &&& V4L2_CAP_STREAMING = 0 →
      caps &&& V4L2_CAP_READWRITE ≠ 0 →
      InitVideoIo caps = some .IO_METHOD_READ) ∧
    (caps &&& V4L2_CAP_VIDEO_CAPTURE ≠ 0 → caps &&& V4L2_CAP_STREAMING = 0 →
      caps &&& V4L2_CAP_READWRITE = 0 → InitVideoIo caps = none) := by
  refine ⟨?_, ?_, ?_, ?_⟩
  · intro h1; simp [InitVideoIo, h1]
  · intro h1 h2; simp [InitVideoIo, h1, h2]
  · intro h1 h2 h3; simp [InitVideoIo, h1, h2, h3]
  · intro h1 h2 h3; simp [InitVideoIo, h1, h2, h3]

/-- Witness for C7: a device with capture, streaming and read/write
capabilities gets the memory-mapped strategy (streaming preferred). -/
theorem InitVideoIo_strategy_choice_witness :
    InitVideoIo 0x05000001 = some .IO_METHOD_MMAP :=
  (InitVideoIo_strategy_choice 0x05000001).2.1 (by decide) (by decide)

/-- C5: the interlacing handling of setup agrees with the §4.3 table on
every field value — named modes 1-9 and all unrecognized values — and the
reported height is doubled exactly in the alternating-fields case. -/
theorem InitVideoInterlace_matches_spec_table (field height : Nat) :
    InitVideoInterlace field height =
      (specInterlaceFlag field, specInterlaceHeight field height) := by
  match field with
  | 0 => rfl
  | 1 => rfl
  | 2 => rfl
  | 3 => rfl
  | 4 => rfl
  | 5 => rfl
  | 6 => rfl
  | 7 =>
    simp [InitVideoInterlace, specInterlaceFlag, specInterlaceHeight,
      V4L2_FIELD_INTERLACED, V4L2_FIELD_INTERLACED_TB,
      V4L2_FIELD_INTERLACED_BT, V4L2_FIELD_ALTERNATE, Nat.mul_comm]
  | 8 => rfl
  | 9 => rfl
  | n + 10 => rfl

/-- C9: the display aspect ratio defaults to 4:3 (scaled by
`VOUT_ASPECT_FACTOR`) and is replaced by `W * factor / H` exactly when the
supplied string contains a colon; the published sample-aspect pair is
`(ar * height, factor * width)`; and for "16:9" at 720x480 the published
pair is (368640000, 311040000), exactly proportional to
`(16 * 480) : (9 * 720)`. -/
theorem InitVideoSar_aspect (s : List Char) (rest : List Char)
    (w h : Nat) :
    (InitVideoSar none w h =
      (4 * VOUT_ASPECT_FACTOR / 3 * h, VOUT_ASPECT_FACTOR * w)) ∧
    (strchrColon s = none → InitVideoSar (some s) w h =
      InitVideoSar none w h) ∧
    (strchrColon s = some rest → InitVideoSar (some s) w h =
      (atoi s * VOUT_ASPECT_FACTOR / atoi rest * h,
        VOUT_ASPECT_FACTOR * w)) ∧
    (InitVideoSar (some ['1', '6', ':', '9']) 720 480 =
        (368640000, 311040000) ∧
      368640000 * (9 * 720) = 311040000 * (16 * 480)) := by
  refine ⟨rfl, ?_, ?_, by decide⟩
  · intro hc; simp [InitVideoSar, InitVideoAr, hc]
  · intro hc; simp [InitVideoSar, InitVideoAr, hc]

/-- Witness for C9: a colon-free string keeps the 4:3 default, and "16:9"
substitutes the parsed ratio. -/
theorem InitVideoSar_aspect_witness :
    InitVideoSar (some ['4', '3']) 640 480 = InitVideoSar none 640 480 ∧
    InitVideoSar (some ['1', '6', ':', '9']) 720 480 =
      (atoi ['1', '6', ':', '9'] * VOUT_ASPECT_FACTOR / atoi ['9'] * 480,
        VOUT_ASPECT_FACTOR * 720) :=
  ⟨(InitVideoSar_aspect ['4', '3'] [] 640 480).2.1 (by decide),
   (InitVideoSar_aspect ['1', '6', ':', '9'] ['9'] 720 480).2.2.1 (by decide)⟩

/-- C6: in each capture cycle, a poll failure with `EINTR` is retried
(same outcome as without the failed attempt, hence not an error), any other
poll failure is fatal (`return -1`), and a poll that elapses with zero
ready descriptors yields the normal no-frame result `return 1`, which is a
different outcome from the fatal one. -/
theorem Demux_poll_semantics (rest : List PollAttempt) (e rv : Nat) :
    (DemuxWait (.pollFailed EINTR :: rest) = DemuxWait rest) ∧
    (e ≠ EINTR → DemuxWait (.pollFailed e :: rest) = .fatal) ∧
    (DemuxWait (.pollReturned 0 :: rest) = .noFrame) ∧
    (WaitOutcome.noFrame ≠ WaitOutcome.fatal) ∧
    (rv ≠ 0 → DemuxWait (.pollReturned rv :: rest) = .dataReady rv) := by
  refine ⟨rfl, ?_, rfl, by decide, ?_⟩
  · intro hne; simp [DemuxWait, hne]
  · intro hrv; simp [DemuxWait, hrv]

/-- Witness for C6: a non-EINTR poll failure is fatal and a nonzero
`revents` proceeds to the read phase. -/
theorem Demux_poll_semantics_witness :
    DemuxWait [.pollFailed 5] = .fatal ∧
    DemuxWait [.pollReturned 1] = .dataReady 1 :=
  ⟨(Demux_poll_semantics [] 5 1).2.1 (by decide),
   (Demux_poll_semantics [] 5 1).2.2.2.2 (by decide)⟩

/-- C4 evaluation at the failing input: tearing down a memory-mapped session
with one mapped buffer issues `VIDIOC_STREAMOFF` *before* unmapping the
buffer (the trace is dqbuf, streamoff, munmap, ...), so the claimed
ordering — every mapping released before streaming is disabled — is false of
the code, even though the code's own NOTE comment (demux.c line 489) states
that buffers must be unmapped before streamoff. -/
theorem DemuxClose_streamoff_before_munmap :
    DemuxCloseTrace .IO_METHOD_MMAP 1 true =
      [.dqbuf, .streamoff, .munmapBuf 0, .freeBufArray,
       .controlsDeinit, .closeFd, .freeSys] ∧
    unmapsPrecedeStreamoff (DemuxCloseTrace .IO_METHOD_MMAP 1 true) =
      false := by
  decide

/-- C10: `GetPackedYuvOffsets` succeeds exactly on the seven packed YUV
4:2:2 fourccs, writing offsets (1,0,2) for the UYVY family, (0,1,3) for the
YUYV family and (0,3,1) for YVYU; every other fourcc yields `VLC_EGENERIC`
with all three offset locations left unchanged. -/
theorem GetPackedYuvOffsets_cases (y u v : Int) (i_chroma : Nat) :
    (GetPackedYuvOffsets (fcc 'U' 'Y' 'V' 'Y') y u v =
      (VLC_SUCCESS, 1, 0, 2)) ∧
    (GetPackedYuvOffsets (fcc 'U' 'Y' 'N' 'V') y u v =
      (VLC_SUCCESS, 1, 0, 2)) ∧
    (GetPackedYuvOffsets (fcc 'Y' '4' '2' '2') y u v =
      (VLC_SUCCESS, 1, 0, 2)) ∧
    (GetPackedYuvOffsets (fcc 'c' 'y' 'u' 'v') y u v =
      (VLC_SUCCESS, 1, 0, 2)) ∧
    (GetPackedYuvOffsets (fcc 'Y' 'U' 'Y' '2') y u v =
      (VLC_SUCCESS, 0, 1, 3)) ∧
    (GetPackedYuvOffsets (fcc 'Y' 'U' 'N' 'V') y u v =
      (VLC_SUCCESS, 0, 1, 3)) ∧
    (GetPackedYuvOffsets (fcc 'Y' 'V' 'Y' 'U') y u v =
      (VLC_SUCCESS, 0, 3, 1)) ∧
    (i_chroma ∉ [fcc 'U' 'Y' 'V' 'Y', fcc 'U' 'Y' 'N' 'V',
        fcc 'Y' '4' '2' '2', fcc 'c' 'y' 'u' 'v', fcc 'Y' 'U' 'Y' '2',
        fcc 'Y' 'U' 'N' 'V', fcc 'Y' 'V' 'Y' 'U'] →
      GetPackedYuvOffsets i_chroma y u v = (VLC_EGENERIC, y, u, v)) ∧
    VLC_SUCCESS ≠ VLC_EGENERIC := by
  refine ⟨rfl, rfl, rfl, rfl, rfl, rfl, rfl, ?_, by decide⟩
  intro hmem
  simp only [List.mem_cons, List.not_mem_nil, or_false, not_or] at hmem
  obtain ⟨h1, h2, h3, h4, h5, h6, h7⟩ := hmem
  simp [GetPackedYuvOffsets, h1, h2, h3, h4, h5, h6, h7]

/-- Witness for C10: an unrelated fourcc (0) takes the error path and the
offset locations keep their incoming values. -/
theorem GetPackedYuvOffsets_cases_witness :
    GetPackedYuvOffsets 0 7 8 9 = (VLC_EGENERIC, 7, 8, 9) :=
  (GetPackedYuvOffsets_cases 7 8 9 0).2.2.2.2.2.2.2.1 (by decide)

end V4l2Demux
